import Mathlib

set_option maxRecDepth 8192

/-!
Verification development for the conversation orchestration engine of
`ai_chatter.py`.  The Python source is shallowly embedded: pure functions
become Lean functions, the Driver loop becomes a fuel-indexed step function,
the external chat-completion call becomes an oracle argument
(`Option String`, `none` modelling a raised exception), and the two
`random.choice` call sites draw from injectable `Nat → Nat` streams
(`random.choice(l)` is modelled as indexing `l` at `rnd % l.length`, which is
`none` exactly when the list is empty — the situation in which CPython raises
`IndexError`).  Wall-clock time is modelled by a stream `elapsed : Nat → Nat`
giving the nonnegative elapsed seconds observed at the top of each loop
iteration.
-/

namespace AIChatter

/-- Python whitespace test used by `str.strip()` (ASCII part; the source
only ever strips model output, and none of the verified properties depend on
non-ASCII whitespace). -/
def isPySpace (c : Char) : Bool :=
  c == ' ' || c == '\t' || c == '\n' || c == '\r' || c == '\x0b' || c == '\x0c'

/-- Python `s.strip()`: drop leading and trailing whitespace. -/
def pyStrip (s : String) : String :=
  String.mk (((s.data.dropWhile isPySpace).reverse.dropWhile isPySpace).reverse)

/-- ASCII lowering of a character, as Python `str.lower()` acts on ASCII
letters (the source only compares the results against the ASCII literal
`"chair"`). -/
def charLower (c : Char) : Char :=
  if 65 ≤ c.toNat && c.toNat ≤ 90 then Char.ofNat (c.toNat + 32) else c

/-- Python `s.lower()` restricted to ASCII letters. -/
def pyLower (s : String) : String := String.mk (s.data.map charLower)

/-- Does `needle` occur at the head of `hay`? -/
def beginsList : List Char → List Char → Bool
  | _, [] => true
  | [], _ :: _ => false
  | c :: hay, d :: needle => c == d && beginsList hay needle

/-- Does `needle` occur contiguously anywhere inside `hay`? -/
def subList : List Char → List Char → Bool
  | [], needle => needle.isEmpty
  | c :: hay, needle => beginsList (c :: hay) needle || subList hay needle

/-- Python `needle in hay` on strings: contiguous substring test. -/
def pyIn (needle hay : String) : Bool := subList hay.data needle.data

/-- Character record of `ai_chatter.py` (dataclass `Character`).  The
`temperature` field is sampling payload passed through to the external
backend untouched; it is modelled as `Rat` since the core never computes
with it. -/
structure Character where
  name : String
  handle : String
  host : String
  model : String
  temperature : Rat
  personality : String
  role : String
  deriving DecidableEq

/-- Message record of `ai_chatter.py` (dataclass `Message`). -/
structure Message where
  speaker : String
  handle : String
  text : String
  deriving DecidableEq

/-- Character class of the regex `MENTION_RE = @([A-Za-z0-9_\-]+)`. -/
def isHandleChar (c : Char) : Bool :=
  (65 ≤ c.toNat && c.toNat ≤ 90) || (97 ≤ c.toNat && c.toNat ≤ 122) ||
    (48 ≤ c.toNat && c.toNat ≤ 57) || c == '_' || c == '-'

/-- Left-to-right scanner realising `MENTION_RE.findall`.  The second
argument is `none` outside a candidate match and `some acc` (reversed
collected handle characters) after an `@` has been seen. -/
def mentionScan : List Char → Option (List Char) → List String
  | [], none => []
  | [], some acc => if acc.isEmpty then [] else [String.mk acc.reverse]
  | c :: rest, none =>
      if c == '@' then mentionScan rest (some []) else mentionScan rest none
  | c :: rest, some acc =>
      if isHandleChar c then mentionScan rest (some (c :: acc))
      else if c == '@' then
        (if acc.isEmpty then [] else [String.mk acc.reverse]) ++ mentionScan rest (some [])
      else
        (if acc.isEmpty then [] else [String.mk acc.reverse]) ++ mentionScan rest none

/-- `MENTION_RE.findall(text)`: every maximal `@handle` token, in order. -/
def mentionFindall (text : String) : List String := mentionScan text.data none

/-- Source `detect_mentions` (lines 333–338): keep, in order, the found
handles that are members of `handles`. -/
def detect_mentions (text : String) (handles : List String) : List String :=
  (mentionFindall text).foldl (fun found h => if handles.contains h then found ++ [h] else found) []

/-- First predicate of the `choose_chair` cascade: `c.role.lower() == "chair"`. -/
def roleIsChair (c : Character) : Bool := pyLower c.role == "chair"

/-- Second predicate of the `choose_chair` cascade:
`c.handle.lower() == "chair" or "議長" in c.name`. -/
def markIsChair (c : Character) : Bool :=
  pyLower c.handle == "chair" || pyIn "議長" c.name

/-- Source `choose_chair` (lines 276–283).  `none` models the `IndexError`
that `characters[0]` would raise on an empty roster. -/
def choose_chair (characters : List Character) : Option Character :=
  match characters.find? roleIsChair with
  | some c => some c
  | none =>
    match characters.find? markIsChair with
    | some c => some c
    | none => characters.head?

/-- Model of `random.choice(l)` with injected randomness `rnd`: index `l` at
`rnd % l.length`.  `none` exactly when `l` is empty, where CPython raises
`IndexError`. -/
def pyChoice (rnd : Nat) (l : List α) : Option α := l.get? (rnd % l.length)

/-- The forced-handle lookup at the head of `choose_next_speaker`: Python
`if forced:` treats both `None` and `""` as falsy, and the loop returns the
first roster member whose handle equals `forced` (falling through when no
member matches). -/
def forcedLookup (characters : List Character) (forced : Option String) : Option Character :=
  match forced with
  | none => none
  | some f => if f == "" then none else characters.find? (fun c => c.handle == f)

/-- Source `choose_next_speaker` (lines 341–353).  Candidates exclude the
last speaker; an empty candidate set falls back to the full roster; selection
is `random.choice`. -/
def choose_next_speaker (rnd : Nat) (characters : List Character)
    (last_handle forced : Option String) : Option Character :=
  match forcedLookup characters forced with
  | some c => some c
  | none =>
    if (characters.filter fun c => !(some c.handle == last_handle)).isEmpty then
      pyChoice rnd characters
    else
      pyChoice rnd (characters.filter fun c => !(some c.handle == last_handle))

/-- Source `chair_prompt` (lines 356–357). -/
def chair_prompt (_chair target : Character) : String :=
  "@" ++ target.handle ++ " どう思う？"

/-- Closing-language markers of `should_end_conversation`. -/
def end_signals : List String :=
  ["結論", "まとめ", "以上", "終わり", "もう言うことはない", "締める"]

/-- The inspected window: `"\n".join(m.text for m in history[-3:])`. -/
def tailWindow (history : List Message) : String :=
  String.intercalate "\n" ((history.drop (history.length - 3)).map Message.text)

/-- Source `should_end_conversation` (lines 360–367). -/
def should_end_conversation (history : List Message) : Bool :=
  if history.length < 4 then false
  else if (end_signals.any fun sig => pyIn sig (tailWindow history)) &&
      !(pyIn "@" (tailWindow history)) then true
  else false

/-- Source `format_transcript` (lines 286–290). -/
def format_transcript (history : List Message) : String :=
  String.intercalate "\n"
    (history.map fun m => m.speaker ++ "(@" ++ m.handle ++ "): " ++ m.text)

/-- Source `build_system_prompt` (lines 293–313). -/
def build_system_prompt (character : Character) (environment theme : String)
    (handles : List String) : String :=
  let handles_str := String.intercalate ", " (handles.map fun h => "@" ++ h)
  "あなたは会話に参加するAIキャラクターです。\n" ++
  "名前: " ++ character.name ++ "\n" ++
  "ハンドル: @" ++ character.handle ++ "\n" ++
  "性格: " ++ character.personality ++ "\n" ++
  "環境: " ++ environment ++ "\n" ++
  "会話ルール:\n" ++
  "- 感情の温度を保ち、必要以上に冷静にならない。\n" ++
  "- 会話の流れに沿い、自然な口調で話す。\n" ++
  "- 他のキャラクターに呼びかける時は @handle を使う。\n" ++
  "- テーマ: " ++ theme ++ "\n" ++
  "- 使えるメンション: " ++ handles_str ++ "\n" ++
  "出力はセリフのみ。話者名や記号は付けない。"

/-- Loop-local mutable state of `run_conversation`: the transcript, the last
speaker's handle and the forced next handle. -/
structure LoopSt where
  history : List Message
  last_handle : Option String
  forced_next : Option String
  deriving DecidableEq

/-- Result of one body execution of the `while` loop of `run_conversation`:
`cont` is a `continue` (or fall-through) with updated state, `stop` is the
`break` taken when `should_end_conversation` fires, and `crash` is an
uncaught exception escaping the loop body. -/
inductive StepOut where
  | cont (st : LoopSt)
  | stop (history : List Message)
  | crash
  deriving DecidableEq

/-- Outcome of a whole `run_conversation` call: normal return, an uncaught
exception, or exhaustion of the model's fuel before the timer fired (a model
artifact, never produced when `elapsed` reaches `max_seconds` within fuel). -/
inductive Outcome where
  | finished (history : List Message)
  | raised
  | fuelOut
  deriving DecidableEq

/-- Chair apology appended on the Responder-failure path (lines 398–404). -/
def failureMessage (chair speaker : Character) : Message :=
  ⟨chair.name, chair.handle,
    "今の発言取得で問題があったよ。" ++ speaker.name ++ "はあとで話してね。"⟩

/-- Chair's opening line (line 379). -/
def openingMessage (chair : Character) (theme : String) : Message :=
  ⟨chair.name, chair.handle, "本日のテーマは「" ++ theme ++ "」です。"⟩

/-- One iteration of the `while` body of `run_conversation` (lines 386–424).
`oracle k speaker prompt transcript` models the `call_ollama` result of the
`k`-th iteration: `none` is a raised exception, `some raw` the raw reply
(`call_ollama` itself applies `.strip()`, hence `pyStrip raw` below).
`rndA`/`rndB` feed the two `random.choice` sites. -/
def turnStep (environment : String) (characters : List Character) (theme : String)
    (chair : Character)
    (oracle : Nat → Character → String → String → Option String)
    (rndA rndB : Nat → Nat) (k : Nat) (st : LoopSt) : StepOut :=
  match choose_next_speaker (rndA k) characters st.last_handle st.forced_next with
  | none => .crash
  | some speaker =>
    match oracle k speaker
        (build_system_prompt speaker environment theme (characters.map Character.handle))
        (format_transcript st.history) with
    | none => .cont ⟨st.history ++ [failureMessage chair speaker], some chair.handle, none⟩
    | some raw =>
      if pyStrip raw == "" || decide ((pyStrip (pyStrip raw)).length < 2) then
        match pyChoice (rndB k) (characters.filter fun c => !(c.handle == chair.handle)) with
        | none => .crash
        | some target =>
          .cont ⟨st.history ++ [Message.mk chair.name chair.handle (chair_prompt chair target)],
                 some chair.handle, some target.handle⟩
      else
        if should_end_conversation
            (st.history ++ [Message.mk speaker.name speaker.handle (pyStrip raw)]) then
          .stop (st.history ++ [Message.mk speaker.name speaker.handle (pyStrip raw)])
        else
          .cont ⟨st.history ++ [Message.mk speaker.name speaker.handle (pyStrip raw)],
                 some speaker.handle,
                 (detect_mentions (pyStrip raw) (characters.map Character.handle)).head?⟩

/-- The `while time.time() - start < max_seconds` loop, fuel-indexed.
`elapsed k` is the elapsed time observed at the top of iteration `k`. -/
def runLoop (environment : String) (characters : List Character) (theme : String)
    (chair : Character)
    (oracle : Nat → Character → String → String → Option String)
    (rndA rndB : Nat → Nat) (max_seconds : Nat) (elapsed : Nat → Nat) :
    Nat → Nat → LoopSt → Outcome
  | 0, k, st =>
    if max_seconds ≤ elapsed k then .finished st.history else .fuelOut
  | fuel + 1, k, st =>
    if max_seconds ≤ elapsed k then .finished st.history
    else
      match turnStep environment characters theme chair oracle rndA rndB k st with
      | .crash => .raised
      | .stop h => .finished h
      | .cont st' =>
          runLoop environment characters theme chair oracle rndA rndB max_seconds elapsed
            fuel (k + 1) st'

/-- Driver state right after the opening line is appended (lines 379–384). -/
def initState (chair : Character) (theme : String) : LoopSt :=
  ⟨[openingMessage chair theme], some chair.handle, none⟩

/-- Source `run_conversation` (lines 370–426), with the external inputs
(responder oracle, the two randomness streams, the clock) and fuel made
explicit. -/
def run_conversation (environment : String) (characters : List Character) (theme : String)
    (max_seconds : Nat)
    (oracle : Nat → Character → String → String → Option String)
    (rndA rndB : Nat → Nat) (elapsed : Nat → Nat) (fuel : Nat) : Outcome :=
  match choose_chair characters with
  | none => .raised
  | some chair =>
      runLoop environment characters theme chair oracle rndA rndB max_seconds elapsed
        fuel 0 (initState chair theme)

/-- Sample character, non-chair. -/
def cAlice : Character := ⟨"Alice", "alice", "localhost", "m1", 1, "friendly", ""⟩

/-- Sample character, non-chair. -/
def cBob : Character := ⟨"Bob", "bob", "localhost", "m1", 1, "calm", ""⟩

/-- Sample chair by role (uppercase role exercises the case-insensitive
comparison). -/
def cCarol : Character := ⟨"Carol", "carol", "localhost", "m1", 1, "leads", "Chair"⟩

/-- Sample single-member roster inhabitant. -/
def cSolo : Character := ⟨"Solo", "solo", "localhost", "m1", 1, "alone", ""⟩

/-- Four-message transcript whose last three texts are
`["まとめると...", "以上です", "@alice どう思う？"]`. -/
def exMention : List Message :=
  [⟨"C", "c", "開始"⟩, ⟨"A", "a", "まとめると..."⟩, ⟨"B", "b", "以上です"⟩,
   ⟨"C", "c", "@alice どう思う？"⟩]

/-- Four-message transcript whose last three texts are
`["まとめると...", "以上です", "そうだね"]`. -/
def exNoMention : List Message :=
  [⟨"C", "c", "開始"⟩, ⟨"A", "a", "まとめると..."⟩, ⟨"B", "b", "以上です"⟩,
   ⟨"C", "c", "そうだね"⟩]

/-- Four-message transcript whose window contains a closing marker and a bare
`@` character that is not part of any valid mention token. -/
def exBareAt : List Message :=
  [⟨"C", "c", "x"⟩, ⟨"A", "a", "以上"⟩, ⟨"B", "b", "y"⟩, ⟨"C", "c", "a @ b"⟩]

/-- Driver bookkeeping invariant: `last_handle` is exactly the handle of the
most recently appended transcript message, and that handle belongs to the
roster. -/
def lastInv (characters : List Character) (st : LoopSt) : Prop :=
  ∃ m, st.history.getLast? = some m ∧ st.last_handle = some m.handle ∧
    m.handle ∈ characters.map Character.handle

/-! ## Helper lemmas -/

theorem string_ext {s t : String} (h : s.data = t.data) : s = t := by
  cases s with
  | mk d1 => cases t with
    | mk d2 => exact congrArg String.mk h

theorem str_data_append (s t : String) : (s ++ t).data = s.data ++ t.data := rfl

theorem append_ne_empty_left {a : String} (b : String) (h : a ≠ "") : a ++ b ≠ "" := by
  intro he
  apply h
  have hd : a.data ++ b.data = [] := by rw [← str_data_append, he]
  exact string_ext (by simp [(List.append_eq_nil.mp hd).1])

theorem beginsList_append (t b : List Char) : beginsList (t ++ b) t = true := by
  induction t with
  | nil => cases b <;> rfl
  | cons c t ih => simp [beginsList, ih]

theorem subList_self_append (t b : List Char) : subList (t ++ b) t = true := by
  cases t with
  | nil => cases b <;> rfl
  | cons c t =>
    have h := beginsList_append (c :: t) b
    simp only [List.cons_append] at h ⊢
    simp [subList, h]

theorem subList_append_left (a : List Char) {hay t : List Char}
    (h : subList hay t = true) : subList (a ++ hay) t = true := by
  induction a with
  | nil => simpa using h
  | cons c a ih => simp [subList, ih]

theorem pyIn_sandwich (a t b : String) : pyIn t (a ++ t ++ b) = true := by
  show subList (a ++ t ++ b).data t.data = true
  rw [str_data_append, str_data_append, List.append_assoc]
  exact subList_append_left _ (subList_self_append _ _)

theorem failureMessage_text_ne (chair sp : Character) : (failureMessage chair sp).text ≠ "" :=
  append_ne_empty_left _ (append_ne_empty_left _ (by decide))

theorem chair_prompt_ne (chair t : Character) : chair_prompt chair t ≠ "" :=
  append_ne_empty_left _ (append_ne_empty_left _ (by decide))

theorem openingMessage_text_ne (chair : Character) (theme : String) :
    (openingMessage chair theme).text ≠ "" :=
  append_ne_empty_left _ (append_ne_empty_left _ (by decide))

theorem pyChoice_mem {α : Type} {l : List α} {rnd : Nat} {a : α}
    (h : pyChoice rnd l = some a) : a ∈ l :=
  List.get?_mem h

theorem pyChoice_some {α : Type} {l : List α} (rnd : Nat) (h : l ≠ []) :
    ∃ a ∈ l, pyChoice rnd l = some a := by
  have hlen : 0 < l.length := List.length_pos.mpr h
  have hm : rnd % l.length < l.length := Nat.mod_lt _ hlen
  exact ⟨l.get ⟨rnd % l.length, hm⟩, List.get_mem _ _ _, List.get?_eq_get hm⟩

theorem forcedLookup_mem {cs : List Character} {forced : Option String} {c : Character}
    (h : forcedLookup cs forced = some c) : c ∈ cs := by
  cases forced with
  | none => cases h
  | some f =>
    simp only [forcedLookup] at h
    by_cases hf : (f == "") = true
    · rw [if_pos hf] at h; cases h
    · rw [if_neg hf] at h
      exact List.mem_of_find?_eq_some h

theorem choose_next_speaker_mem {rnd : Nat} {cs : List Character} {last forced : Option String}
    {c : Character} (h : choose_next_speaker rnd cs last forced = some c) : c ∈ cs := by
  unfold choose_next_speaker at h
  cases hf : forcedLookup cs forced with
  | some d => rw [hf] at h; cases h; exact forcedLookup_mem hf
  | none =>
    rw [hf] at h
    simp only at h
    by_cases he : (cs.filter fun c => !(some c.handle == last)).isEmpty = true
    · rw [if_pos he] at h
      exact pyChoice_mem h
    · rw [if_neg he] at h
      exact (List.mem_filter.mp (pyChoice_mem h)).1

theorem choose_next_speaker_some {cs : List Character} (rnd : Nat) (last forced : Option String)
    (h : cs ≠ []) : ∃ c ∈ cs, choose_next_speaker rnd cs last forced = some c := by
  unfold choose_next_speaker
  cases hf : forcedLookup cs forced with
  | some d => exact ⟨d, forcedLookup_mem hf, rfl⟩
  | none =>
    simp only
    by_cases he : (cs.filter fun c => !(some c.handle == last)).isEmpty = true
    · rw [if_pos he]
      exact pyChoice_some rnd h
    · rw [if_neg he]
      have hne : (cs.filter fun c => !(some c.handle == last)) ≠ [] := by
        intro hnil; rw [hnil] at he; exact he rfl
      obtain ⟨a, ham, ha⟩ := pyChoice_some rnd hne
      exact ⟨a, (List.mem_filter.mp ham).1, ha⟩

theorem choose_chair_mem {cs : List Character} {c : Character}
    (h : choose_chair cs = some c) : c ∈ cs := by
  unfold choose_chair at h
  cases h1 : cs.find? roleIsChair with
  | some d => rw [h1] at h; cases h; exact List.mem_of_find?_eq_some h1
  | none =>
    rw [h1] at h
    cases h2 : cs.find? markIsChair with
    | some d => rw [h2] at h; cases h; exact List.mem_of_find?_eq_some h2
    | none => rw [h2] at h; exact List.mem_of_mem_head? h

theorem emit_wf {a : List Char} (hall : a.all isHandleChar = true) :
    ∀ h ∈ (if a.isEmpty then ([] : List String) else [String.mk a.reverse]),
      h.data ≠ [] ∧ h.data.all isHandleChar = true := by
  by_cases ha : a.isEmpty = true
  · rw [if_pos ha]; intro h hm; cases hm
  · rw [if_neg ha]
    intro h hm
    rcases List.mem_cons.mp hm with rfl | hm₂
    · constructor
      · show a.reverse ≠ []
        intro hr
        exact ha (List.isEmpty_iff.mpr (by rwa [List.reverse_eq_nil_iff] at hr))
      · show a.reverse.all isHandleChar = true
        rw [List.all_reverse]; exact hall
    · cases hm₂

theorem mentionScan_wf :
    ∀ (cs : List Char) (acc : Option (List Char)),
      (∀ a, acc = some a → a.all isHandleChar = true) →
      ∀ h ∈ mentionScan cs acc, h.data ≠ [] ∧ h.data.all isHandleChar = true := by
  intro cs
  induction cs with
  | nil =>
    intro acc hacc h hm
    cases acc with
    | none => cases hm
    | some a =>
      simp only [mentionScan] at hm
      exact emit_wf (hacc a rfl) h hm
  | cons c rest ih =>
    intro acc hacc h hm
    cases acc with
    | none =>
      simp only [mentionScan] at hm
      by_cases hc : (c == '@') = true
      · rw [if_pos hc] at hm
        exact ih (some []) (fun a ha => by cases ha; rfl) h hm
      · rw [if_neg hc] at hm
        exact ih none (fun a ha => by cases ha) h hm
    | some a =>
      simp only [mentionScan] at hm
      by_cases hhc : isHandleChar c = true
      · rw [if_pos hhc] at hm
        refine ih (some (c :: a)) (fun b hb => ?_) h hm
        cases hb
        simp [List.all_cons, hhc, hacc a rfl]
      · rw [if_neg hhc] at hm
        by_cases hat : (c == '@') = true
        · rw [if_pos hat] at hm
          rcases List.mem_append.mp hm with hm₁ | hm₂
          · exact emit_wf (hacc a rfl) h hm₁
          · exact ih (some []) (fun b hb => by cases hb; rfl) h hm₂
        · rw [if_neg hat] at hm
          rcases List.mem_append.mp hm with hm₁ | hm₂
          · exact emit_wf (hacc a rfl) h hm₁
          · exact ih none (fun b hb => by cases hb) h hm₂

theorem foldl_append_filter (p : String → Bool) :
    ∀ (l acc : List String),
      l.foldl (fun found h => if p h then found ++ [h] else found) acc = acc ++ l.filter p := by
  intro l
  induction l with
  | nil => intro acc; simp
  | cons x l ih =>
    intro acc
    by_cases hx : p x = true
    · simp only [List.foldl_cons, List.filter_cons, if_pos hx, ih]
      simp
    · simp only [List.foldl_cons, List.filter_cons, if_neg hx, ih]

theorem choose_chair_some {cs : List Character} (h : cs ≠ []) :
    ∃ c, choose_chair cs = some c ∧ c ∈ cs := by
  cases hc : choose_chair cs with
  | some c => exact ⟨c, rfl, choose_chair_mem hc⟩
  | none =>
    exfalso
    unfold choose_chair at hc
    cases h1 : cs.find? roleIsChair with
    | some d => rw [h1] at hc; cases hc
    | none =>
      rw [h1] at hc
      cases h2 : cs.find? markIsChair with
      | some d => rw [h2] at hc; cases hc
      | none =>
        rw [h2] at hc
        cases cs with
        | nil => exact h rfl
        | cons a t => cases hc

theorem degenerate_false_ne {raw : String}
    (hd : ¬(pyStrip raw == "" || decide ((pyStrip (pyStrip raw)).length < 2)) = true) :
    pyStrip raw ≠ "" := by
  have hd' : (pyStrip raw == "" || decide ((pyStrip (pyStrip raw)).length < 2)) = false :=
    Bool.eq_false_iff.mpr hd
  exact beq_eq_false_iff_ne.mp (Bool.or_eq_false_iff.mp hd').1

theorem turnStep_cont_cases
    {environment theme : String} {characters : List Character} {chair : Character}
    {oracle : Nat → Character → String → String → Option String}
    {rndA rndB : Nat → Nat} {k : Nat} {st st' : LoopSt}
    (h : turnStep environment characters theme chair oracle rndA rndB k st = .cont st') :
    ∃ speaker ∈ characters,
      choose_next_speaker (rndA k) characters st.last_handle st.forced_next = some speaker ∧
      ((st'.history = st.history ++ [failureMessage chair speaker] ∧
          st'.last_handle = some chair.handle ∧ st'.forced_next = none) ∨
       (∃ target ∈ characters, (target.handle == chair.handle) = false ∧
          st'.history = st.history ++
            [Message.mk chair.name chair.handle (chair_prompt chair target)] ∧
          st'.last_handle = some chair.handle ∧ st'.forced_next = some target.handle) ∨
       (∃ resp, resp ≠ "" ∧
          st'.history = st.history ++ [Message.mk speaker.name speaker.handle resp] ∧
          st'.last_handle = some speaker.handle)) := by
  unfold turnStep at h
  split at h
  · cases h
  · rename_i speaker hc
    split at h
    · cases h
      exact ⟨speaker, choose_next_speaker_mem hc, hc, Or.inl ⟨rfl, rfl, rfl⟩⟩
    · rename_i raw ho
      split at h
      · split at h
        · cases h
        · rename_i hd target ht
          cases h
          refine ⟨speaker, choose_next_speaker_mem hc, hc,
            Or.inr (Or.inl ⟨target, (List.mem_filter.mp (pyChoice_mem ht)).1, ?_, rfl, rfl, rfl⟩)⟩
          have h2 := (List.mem_filter.mp (pyChoice_mem ht)).2
          rwa [Bool.not_eq_true'] at h2
      · rename_i hd
        split at h
        · cases h
        · cases h
          exact ⟨speaker, choose_next_speaker_mem hc, hc,
            Or.inr (Or.inr ⟨pyStrip raw, degenerate_false_ne hd, rfl, rfl⟩)⟩

theorem turnStep_stop_cases
    {environment theme : String} {characters : List Character} {chair : Character}
    {oracle : Nat → Character → String → String → Option String}
    {rndA rndB : Nat → Nat} {k : Nat} {st : LoopSt} {hist : List Message}
    (h : turnStep environment characters theme chair oracle rndA rndB k st = .stop hist) :
    ∃ speaker ∈ characters, ∃ resp, resp ≠ "" ∧
      hist = st.history ++ [Message.mk speaker.name speaker.handle resp] := by
  unfold turnStep at h
  split at h
  · cases h
  · rename_i speaker hc
    split at h
    · cases h
    · rename_i raw ho
      split at h
      · split at h
        · cases h
        · cases h
      · rename_i hd
        split at h
        · cases h
          exact ⟨speaker, choose_next_speaker_mem hc, pyStrip raw, degenerate_false_ne hd, rfl⟩
        · cases h

theorem singleton_text_ne {f : Message} (hf : f.text ≠ "") : ∀ m ∈ [f], m.text ≠ "" :=
  fun _ hm => (List.mem_singleton.mp hm) ▸ hf

theorem turnStep_cont_extends
    {environment theme : String} {characters : List Character} {chair : Character}
    {oracle : Nat → Character → String → String → Option String}
    {rndA rndB : Nat → Nat} {k : Nat} {st st' : LoopSt}
    (h : turnStep environment characters theme chair oracle rndA rndB k st = .cont st') :
    ∃ ms, st'.history = st.history ++ ms ∧ ∀ m ∈ ms, m.text ≠ "" := by
  obtain ⟨speaker, _, _, hcase⟩ := turnStep_cont_cases h
  rcases hcase with ⟨hh, _, _⟩ | ⟨target, _, _, hh, _, _⟩ | ⟨resp, hresp, hh, _⟩
  · exact ⟨_, hh, singleton_text_ne (failureMessage_text_ne chair speaker)⟩
  · exact ⟨_, hh, singleton_text_ne (chair_prompt_ne chair target)⟩
  · exact ⟨_, hh, singleton_text_ne hresp⟩

theorem turnStep_stop_extends
    {environment theme : String} {characters : List Character} {chair : Character}
    {oracle : Nat → Character → String → String → Option String}
    {rndA rndB : Nat → Nat} {k : Nat} {st : LoopSt} {hist : List Message}
    (h : turnStep environment characters theme chair oracle rndA rndB k st = .stop hist) :
    ∃ ms, hist = st.history ++ ms ∧ ∀ m ∈ ms, m.text ≠ "" := by
  obtain ⟨speaker, _, resp, hresp, hh⟩ := turnStep_stop_cases h
  exact ⟨_, hh, singleton_text_ne hresp⟩

theorem turnStep_cont_lastInv
    {environment theme : String} {characters : List Character} {chair : Character}
    {oracle : Nat → Character → String → String → Option String}
    {rndA rndB : Nat → Nat} {k : Nat} {st st' : LoopSt}
    (hchair : chair ∈ characters)
    (h : turnStep environment characters theme chair oracle rndA rndB k st = .cont st') :
    lastInv characters st' := by
  obtain ⟨speaker, hsp, _, hcase⟩ := turnStep_cont_cases h
  rcases hcase with ⟨hh, hl, _⟩ | ⟨target, _, _, hh, hl, _⟩ | ⟨resp, _, hh, hl⟩
  · exact ⟨failureMessage chair speaker, by rw [hh]; exact List.getLast?_concat _,
      hl, List.mem_map_of_mem _ hchair⟩
  · exact ⟨Message.mk chair.name chair.handle (chair_prompt chair target),
      by rw [hh]; exact List.getLast?_concat _, hl, List.mem_map_of_mem _ hchair⟩
  · exact ⟨Message.mk speaker.name speaker.handle resp,
      by rw [hh]; exact List.getLast?_concat _, hl, List.mem_map_of_mem _ hsp⟩

theorem runLoop_allFail
    {environment theme : String} {characters : List Character} {chair : Character}
    {oracle : Nat → Character → String → String → Option String}
    {rndA rndB : Nat → Nat} {max_seconds : Nat} {elapsed : Nat → Nat}
    (hall : ∀ k c p t, oracle k c p t = none) (hne : characters ≠ []) :
    ∀ (fuel k : Nat) (st : LoopSt), max_seconds ≤ elapsed (k + fuel) →
      ∃ ap, runLoop environment characters theme chair oracle rndA rndB max_seconds elapsed
          fuel k st = .finished (st.history ++ ap) ∧
        ∀ m ∈ ap, ∃ sp ∈ characters, m = failureMessage chair sp := by
  intro fuel
  induction fuel with
  | zero =>
    intro k st htime
    rw [Nat.add_zero] at htime
    exact ⟨[], by simp [runLoop, htime], by intro m hm; cases hm⟩
  | succ fuel ih =>
    intro k st htime
    by_cases hk : max_seconds ≤ elapsed k
    · exact ⟨[], by simp [runLoop, hk], by intro m hm; cases hm⟩
    · obtain ⟨speaker, hsp, hcs⟩ :=
        choose_next_speaker_some (rndA k) st.last_handle st.forced_next hne
      have hstep : turnStep environment characters theme chair oracle rndA rndB k st =
          .cont ⟨st.history ++ [failureMessage chair speaker], some chair.handle, none⟩ := by
        simp only [turnStep, hcs, hall]
      obtain ⟨ap, hrun, hap⟩ := ih (k + 1)
        ⟨st.history ++ [failureMessage chair speaker], some chair.handle, none⟩
        (by have heq : k + 1 + fuel = k + (fuel + 1) := by omega
            rw [heq]; exact htime)
      refine ⟨failureMessage chair speaker :: ap, ?_, ?_⟩
      · simp only [runLoop, if_neg hk, hstep]
        rw [hrun]
        simp
      · intro m hm
        rcases List.mem_cons.mp hm with rfl | hm₂
        · exact ⟨speaker, hsp, rfl⟩
        · exact hap m hm₂

theorem runLoop_text_ne
    {environment theme : String} {characters : List Character} {chair : Character}
    {oracle : Nat → Character → String → String → Option String}
    {rndA rndB : Nat → Nat} {max_seconds : Nat} {elapsed : Nat → Nat} :
    ∀ (fuel k : Nat) (st : LoopSt) (hist : List Message),
      (∀ m ∈ st.history, m.text ≠ "") →
      runLoop environment characters theme chair oracle rndA rndB max_seconds elapsed
        fuel k st = .finished hist →
      ∀ m ∈ hist, m.text ≠ "" := by
  intro fuel
  induction fuel with
  | zero =>
    intro k st hist hinv hrun
    by_cases hk : max_seconds ≤ elapsed k
    · simp only [runLoop, if_pos hk] at hrun
      injection hrun with h3
      subst h3
      exact hinv
    · simp only [runLoop, if_neg hk] at hrun
      cases hrun
  | succ fuel ih =>
    intro k st hist hinv hrun
    by_cases hk : max_seconds ≤ elapsed k
    · simp only [runLoop, if_pos hk] at hrun
      injection hrun with h3
      subst h3
      exact hinv
    · simp only [runLoop, if_neg hk] at hrun
      cases hstep : turnStep environment characters theme chair oracle rndA rndB k st with
      | crash => rw [hstep] at hrun; cases hrun
      | stop h2 =>
        rw [hstep] at hrun
        injection hrun with h3
        subst h3
        obtain ⟨ms, hh, hms⟩ := turnStep_stop_extends hstep
        intro m hm
        rw [hh] at hm
        rcases List.mem_append.mp hm with hm₁ | hm₂
        · exact hinv m hm₁
        · exact hms m hm₂
      | cont st' =>
        rw [hstep] at hrun
        obtain ⟨ms, hh, hms⟩ := turnStep_cont_extends hstep
        refine ih (k + 1) st' hist ?_ hrun
        intro m hm
        rw [hh] at hm
        rcases List.mem_append.mp hm with hm₁ | hm₂
        · exact hinv m hm₁
        · exact hms m hm₂

/-! ## Claim theorems -/

/-- C1 (code-bug evidence): on a single-character roster a successful but
degenerate (under-2-character) Responder reply drives the chair-intervention
path into `random.choice` of the empty list of non-chair characters, so the
run raises instead of completing and returning a transcript. -/
theorem single_roster_degenerate_crash :
    run_conversation "env" [cSolo] "theme" 1 (fun _ _ _ _ => some "x")
      (fun _ => 0) (fun _ => 0) (fun _ => 0) 5 = .raised := by decide

/-- C2 (counterexample): a last-3 window containing the closing marker 以上
and a bare `@` character that is part of no valid mention token still makes
`should_end_conversation` return false, although the claim's
mention-token reading predicts true. -/
theorem should_end_bare_at_counterexample :
    should_end_conversation exBareAt = false ∧ 4 ≤ exBareAt.length ∧
      (∃ sig ∈ end_signals, pyIn sig (tailWindow exBareAt) = true) ∧
      mentionFindall (tailWindow exBareAt) = [] := by decide

/-- C2 (amended): `should_end_conversation` is false below 4 messages; at 4
or more it is true iff a closing marker occurs in the concatenated last-3
window and the character `@` does not occur anywhere in that window (any `@`,
valid mention token or not, suppresses the end); the claim's two concrete
examples evaluate as stated. -/
theorem should_end_spec :
    (∀ h : List Message, h.length < 4 → should_end_conversation h = false) ∧
    (∀ h : List Message, 4 ≤ h.length →
      (should_end_conversation h = true ↔
        (∃ sig ∈ end_signals, pyIn sig (tailWindow h) = true) ∧
          pyIn "@" (tailWindow h) = false)) ∧
    should_end_conversation exMention = false ∧
    should_end_conversation exNoMention = true := by
  refine ⟨?_, ?_, by decide, by decide⟩
  · intro h hl
    simp [should_end_conversation, if_pos hl]
  · intro h hl
    have hnl : ¬h.length < 4 := by omega
    simp only [should_end_conversation, if_neg hnl, Bool.and_eq_true, List.any_eq_true,
      Bool.not_eq_true']
    split <;> (simp_all; try assumption)

/-- Witness for C2's amended theorem: the empty transcript is below the
4-message warm-up. -/
theorem should_end_spec_witness : should_end_conversation [] = false :=
  should_end_spec.1 [] (by decide)

/-- C3 (counterexample): with roster [Alice, Bob], last speaker "alice" and
forced handle "alice", the selector returns Alice — the last speaker — even
though the roster has two members. -/
theorem choose_next_speaker_self_counterexample :
    choose_next_speaker 0 [cAlice, cBob] (some "alice") (some "alice") = some cAlice ∧
      cAlice.handle = "alice" ∧ ([cAlice, cBob] : List Character).length ≠ 1 := by decide

/-- C3 (amended): on a roster with pairwise-distinct handles, whenever the
forced lookup is ineffective (forced handle unset, empty, or matching no
member), `choose_next_speaker` never returns a character whose handle equals
`last_handle` unless the roster has exactly one member. -/
theorem choose_next_speaker_no_self
    (characters : List Character) (l : String) (forced : Option String)
    (hnd : (characters.map Character.handle).Nodup)
    (hfor : forcedLookup characters forced = none) :
    ∀ (rnd : Nat) (c : Character),
      choose_next_speaker rnd characters (some l) forced = some c →
      c.handle = l → characters.length = 1 := by
  intro rnd c hc hcl
  unfold choose_next_speaker at hc
  rw [hfor] at hc
  simp only at hc
  by_cases he : (characters.filter fun c => !(some c.handle == some l)).isEmpty = true
  · rw [if_pos he] at hc
    have hmem := pyChoice_mem hc
    have hall : ∀ d ∈ characters, d.handle = l := by
      intro d hd
      have hnil := List.isEmpty_iff.mp he
      have h2 := List.filter_eq_nil_iff.mp hnil d hd
      simpa using h2
    cases characters with
    | nil => cases hmem
    | cons a t =>
      cases t with
      | nil => rfl
      | cons b t2 =>
        exfalso
        have ha := hall a (by simp)
        have hb := hall b (by simp [List.mem_cons])
        rcases List.nodup_cons.mp hnd with ⟨hna, _⟩
        apply hna
        rw [List.map_cons, ha, hb]
        exact List.mem_cons_self _ _
  · rw [if_neg he] at hc
    have h2 := (List.mem_filter.mp (pyChoice_mem hc)).2
    exfalso
    rw [hcl] at h2
    simp at h2

/-- Witness for C3's amended theorem on the singleton roster. -/
theorem choose_next_speaker_no_self_witness : ([cSolo] : List Character).length = 1 :=
  choose_next_speaker_no_self [cSolo] "solo" none (by decide) rfl 0 cSolo (by decide) rfl

/-- C4: a nonempty forced handle that matches some roster member makes
`choose_next_speaker` return the first matching member, independently of the
random draw and of `last_handle`. -/
theorem choose_next_speaker_forced
    (characters : List Character) (f : String) (hf : f ≠ "")
    (hmem : ∃ c ∈ characters, c.handle = f) :
    ∀ (rnd : Nat) (last : Option String),
      choose_next_speaker rnd characters last (some f) =
        characters.find? fun c => c.handle == f := by
  intro rnd last
  unfold choose_next_speaker
  have hbf : (f == "") = false := beq_eq_false_iff_ne.mpr hf
  have hfl : forcedLookup characters (some f) = characters.find? fun c => c.handle == f := by
    simp [forcedLookup, hbf]
  rw [hfl]
  cases hfind : characters.find? fun c => c.handle == f with
  | some c => rfl
  | none =>
    exfalso
    obtain ⟨c, hcm, hce⟩ := hmem
    have hs : (characters.find? fun c => c.handle == f).isSome := by
      rw [List.find?_isSome]
      exact ⟨c, hcm, by simp [hce]⟩
    rw [hfind] at hs
    cases hs

/-- Witness for C4 at a concrete roster, forced handle "bob". -/
theorem choose_next_speaker_forced_witness :
    choose_next_speaker 0 [cAlice, cBob] (some "bob") (some "bob") =
      (([cAlice, cBob] : List Character).find? fun c => c.handle == "bob") :=
  choose_next_speaker_forced [cAlice, cBob] "bob" (by decide) ⟨cBob, by decide, rfl⟩ 0 (some "bob")

/-- C5: `detect_mentions` keeps, in order and with duplicates, exactly the
extracted `@`-token handles that belong to the known handles; every extracted
token is a nonempty run of characters from `[A-Za-z0-9_-]`; and the claim's
concrete example returns `["alice", "bob"]`. -/
theorem detect_mentions_spec :
    (∀ (text : String) (handles : List String),
        detect_mentions text handles =
          (mentionFindall text).filter fun h => handles.contains h) ∧
    (∀ text : String,
        (mentionFindall text).all
          (fun h => !h.data.isEmpty && h.data.all isHandleChar) = true) ∧
    detect_mentions "Hi @alice and @bob, also @carol" ["alice", "bob"] = ["alice", "bob"] := by
  refine ⟨?_, ?_, by decide⟩
  · intro text handles
    unfold detect_mentions
    simpa using foldl_append_filter (fun h => handles.contains h) (mentionFindall text) []
  · intro text
    rw [List.all_eq_true]
    intro h hm
    obtain ⟨h1, h2⟩ := mentionScan_wf text.data none (fun a ha => by cases ha) h hm
    simp [Bool.and_eq_true, Bool.not_eq_true', List.isEmpty_iff, h1, h2]

/-- C6: whenever the Responder call of an iteration fails, the loop body
continues with exactly one appended chair apology naming the failed speaker,
`last_handle` set to the chair's handle, and `forced_next` unset; and a run
whose Responder calls all fail reaches the time budget and finishes with the
opening line followed only by chair apologies. -/
theorem responder_failure_absorbed :
    (∀ (environment theme : String) (characters : List Character) (chair : Character)
        (oracle : Nat → Character → String → String → Option String)
        (rndA rndB : Nat → Nat) (k : Nat) (st : LoopSt) (speaker : Character),
        choose_next_speaker (rndA k) characters st.last_handle st.forced_next = some speaker →
        oracle k speaker
            (build_system_prompt speaker environment theme (characters.map Character.handle))
            (format_transcript st.history) = none →
        turnStep environment characters theme chair oracle rndA rndB k st =
          .cont ⟨st.history ++ [failureMessage chair speaker], some chair.handle, none⟩) ∧
    (∀ (environment theme : String) (characters : List Character) (max_seconds : Nat)
        (oracle : Nat → Character → String → String → Option String)
        (rndA rndB elapsed : Nat → Nat) (fuel : Nat) (chair : Character),
        (∀ k c p t, oracle k c p t = none) →
        characters ≠ [] →
        choose_chair characters = some chair →
        max_seconds ≤ elapsed fuel →
        ∃ hist,
          run_conversation environment characters theme max_seconds oracle rndA rndB elapsed
            fuel = .finished hist ∧
          hist.head? = some (openingMessage chair theme) ∧
          ∀ m ∈ hist.drop 1, ∃ sp ∈ characters, m = failureMessage chair sp) := by
  constructor
  · intro environment theme characters chair oracle rndA rndB k st speaker hc ho
    simp only [turnStep, hc, ho]
  · intro environment theme characters max_seconds oracle rndA rndB elapsed fuel chair
      hall hne hchair htime
    obtain ⟨ap, hrun, hap⟩ := runLoop_allFail hall hne fuel 0 (initState chair theme)
      (by simpa using htime)
    refine ⟨openingMessage chair theme :: ap, ?_, rfl, ?_⟩
    · unfold run_conversation
      rw [hchair]
      exact hrun
    · intro m hm
      exact hap m hm

/-- Witness for C6 on a concrete two-member roster with an always-failing
Responder: the run finishes with the opening line plus chair apologies. -/
theorem responder_failure_absorbed_witness :
    ∃ hist,
      run_conversation "e" [cCarol, cAlice] "T" 2 (fun _ _ _ _ => none)
          (fun _ => 0) (fun _ => 0) (fun k => k) 3 = .finished hist ∧
      hist.head? = some (openingMessage cCarol "T") ∧
      ∀ m ∈ hist.drop 1, ∃ sp ∈ ([cCarol, cAlice] : List Character),
        m = failureMessage cCarol sp :=
  responder_failure_absorbed.2 "e" "T" [cCarol, cAlice] 2 (fun _ _ _ _ => none)
    (fun _ => 0) (fun _ => 0) (fun k => k) 3 cCarol (fun _ _ _ _ => rfl) (by decide)
    (by decide) (by decide)

/-- C7: with a zero time budget the run returns exactly one message, the
chair's opening line authored with the chair's name and handle, whose text
contains the theme. -/
theorem run_zero_budget_opening_only
    (environment theme : String) (characters : List Character)
    (oracle : Nat → Character → String → String → Option String)
    (rndA rndB elapsed : Nat → Nat) (fuel : Nat)
    (hne : characters ≠ []) :
    ∃ chair, choose_chair characters = some chair ∧
      run_conversation environment characters theme 0 oracle rndA rndB elapsed fuel =
        .finished [openingMessage chair theme] ∧
      pyIn theme (openingMessage chair theme).text = true := by
  obtain ⟨chair, hch, _⟩ := choose_chair_some hne
  refine ⟨chair, hch, ?_, pyIn_sandwich "本日のテーマは「" theme "」です。"⟩
  unfold run_conversation
  rw [hch]
  cases fuel with
  | zero => simp [runLoop, initState, Nat.zero_le]
  | succ n => simp [runLoop, initState, Nat.zero_le]

/-- Witness for C7 on the claim's three-member roster and theme "T". -/
theorem run_zero_budget_opening_only_witness :
    ∃ chair, choose_chair [cCarol, cAlice, cBob] = some chair ∧
      run_conversation "test" [cCarol, cAlice, cBob] "T" 0 (fun _ _ _ _ => none)
          (fun _ => 0) (fun _ => 0) (fun _ => 0) 2 = .finished [openingMessage chair "T"] ∧
      pyIn "T" (openingMessage chair "T").text = true :=
  run_zero_budget_opening_only "test" "T" [cCarol, cAlice, cBob] (fun _ _ _ _ => none)
    (fun _ => 0) (fun _ => 0) (fun _ => 0) 2 (by decide)

/-- C8: the chair-selection cascade returns the first member whose role is
"chair" case-insensitively; else the first whose lowercased handle is "chair"
or whose name contains 議長; else the head of the roster. -/
theorem choose_chair_cascade :
    (∀ (cs : List Character) (c : Character),
        cs.find? roleIsChair = some c → choose_chair cs = some c) ∧
    (∀ (cs : List Character) (c : Character),
        cs.find? roleIsChair = none → cs.find? markIsChair = some c →
        choose_chair cs = some c) ∧
    (∀ cs : List Character,
        cs.find? roleIsChair = none → cs.find? markIsChair = none →
        choose_chair cs = cs.head?) := by
  refine ⟨?_, ?_, ?_⟩
  · intro cs c h
    unfold choose_chair
    rw [h]
  · intro cs c h1 h2
    unfold choose_chair
    rw [h1, h2]
  · intro cs h1 h2
    unfold choose_chair
    rw [h1, h2]

/-- Witness for C8 at a roster whose chair is designated by an uppercase
role string. -/
theorem choose_chair_cascade_witness : choose_chair [cAlice, cCarol, cBob] = some cCarol :=
  choose_chair_cascade.1 [cAlice, cCarol, cBob] cCarol (by decide)

/-- C9: across every loop step the transcript only grows (the new history is
the old one plus the newly appended messages; a heuristic break returns an
extension of the current history), every appended message has non-empty
text, and hence every message of a finished run has non-empty text. -/
theorem transcript_append_only :
    (∀ (environment theme : String) (characters : List Character) (chair : Character)
        (oracle : Nat → Character → String → String → Option String)
        (rndA rndB : Nat → Nat) (k : Nat) (st st' : LoopSt),
        turnStep environment characters theme chair oracle rndA rndB k st = .cont st' →
        ∃ ms, st'.history = st.history ++ ms ∧ ∀ m ∈ ms, m.text ≠ "") ∧
    (∀ (environment theme : String) (characters : List Character) (chair : Character)
        (oracle : Nat → Character → String → String → Option String)
        (rndA rndB : Nat → Nat) (k : Nat) (st : LoopSt) (hist : List Message),
        turnStep environment characters theme chair oracle rndA rndB k st = .stop hist →
        ∃ ms, hist = st.history ++ ms ∧ ∀ m ∈ ms, m.text ≠ "") ∧
    (∀ (environment theme : String) (characters : List Character) (max_seconds : Nat)
        (oracle : Nat → Character → String → String → Option String)
        (rndA rndB elapsed : Nat → Nat) (fuel : Nat) (hist : List Message),
        run_conversation environment characters theme max_seconds oracle rndA rndB elapsed
          fuel = .finished hist →
        ∀ m ∈ hist, m.text ≠ "") := by
  refine ⟨fun _ _ _ _ _ _ _ _ _ _ h => turnStep_cont_extends h,
          fun _ _ _ _ _ _ _ _ _ _ h => turnStep_stop_extends h, ?_⟩
  intro environment theme characters max_seconds oracle rndA rndB elapsed fuel hist hrun
  unfold run_conversation at hrun
  cases hch : choose_chair characters with
  | none => rw [hch] at hrun; cases hrun
  | some chair =>
    rw [hch] at hrun
    refine runLoop_text_ne fuel 0 (initState chair theme) hist ?_ hrun
    intro m hm
    have hms : m = openingMessage chair theme := List.mem_singleton.mp hm
    rw [hms]
    exact openingMessage_text_ne chair theme

/-- Witness for C9's step-extension part on a concrete failing iteration. -/
theorem transcript_append_only_witness :
    ∃ ms, ([openingMessage cCarol "T", failureMessage cCarol cAlice] : List Message) =
        (initState cCarol "T").history ++ ms ∧ ∀ m ∈ ms, m.text ≠ "" :=
  transcript_append_only.1 "e" "T" [cCarol, cAlice] cCarol (fun _ _ _ _ => none)
    (fun _ => 0) (fun _ => 0) 0 (initState cCarol "T")
    ⟨[openingMessage cCarol "T", failureMessage cCarol cAlice], some cCarol.handle, none⟩
    (by decide)

/-- C10: right after the opening and after every continuing loop iteration,
`last_handle` equals the handle of the most recently appended transcript
message, and that handle belongs to the roster. -/
theorem last_handle_tracks :
    (∀ (theme : String) (characters : List Character) (chair : Character),
        choose_chair characters = some chair →
        lastInv characters (initState chair theme)) ∧
    (∀ (environment theme : String) (characters : List Character) (chair : Character)
        (oracle : Nat → Character → String → String → Option String)
        (rndA rndB : Nat → Nat) (k : Nat) (st st' : LoopSt),
        chair ∈ characters →
        turnStep environment characters theme chair oracle rndA rndB k st = .cont st' →
        lastInv characters st') := by
  constructor
  · intro theme characters chair hch
    exact ⟨openingMessage chair theme, rfl, rfl,
      List.mem_map_of_mem _ (choose_chair_mem hch)⟩
  · intro environment theme characters chair oracle rndA rndB k st st' hchair h
    exact turnStep_cont_lastInv hchair h

/-- Witness for C10's opening part on a concrete roster. -/
theorem last_handle_tracks_witness : lastInv [cCarol, cAlice] (initState cCarol "T") :=
  last_handle_tracks.1 "T" [cCarol, cAlice] cCarol (by decide)

end AIChatter
